import Mathlib

/-!
Verification of the in-memory `BookService` catalog (Python sources
`02_08_CodeProject/book_service.py` and
`02_11_CodeProject_refactor/endState/book_service.py`).

The embedding is shallow: the mutable `BookService` object becomes a record
`{ books, next_id }` passed and returned explicitly; methods that can raise
`ValueError` return `Except SvcError`; Python truthiness of the optional
`search` / `sort_by` string arguments (`None` and `""` are both falsy) is
modelled by `Option String` together with an explicit emptiness test.
`list.sort(key=..., reverse=...)` is a stable sort on the key order; with
`reverse=True` CPython reverses, stable-sorts ascending, and reverses again,
which keeps records with equal keys in their pre-sort order.  We model the
stable ascending sort with `List.insertionSort` (stable, sorted, and a
permutation -- the same specification Timsort satisfies, which determines the
output uniquely) and `reverse=True` by the reverse/sort/reverse composition.
-/

/-- Python's `str.lower()`: character-wise lowercasing (our model covers the
ASCII range, which is all `Char.toLower` maps). -/
def String.pyLower (s : String) : String := ⟨s.toList.map Char.toLower⟩

/-- Python's `str.strip()` with no argument: drop leading and trailing
whitespace. -/
def String.pyStrip (s : String) : String :=
  ⟨((s.toList.dropWhile Char.isWhitespace).reverse.dropWhile Char.isWhitespace).reverse⟩

namespace BookSvc

/-- A catalog record: the Python dict `{"id": ..., "title": ..., "author": ...}`. -/
structure Book where
  id : String
  title : String
  author : String
deriving DecidableEq, Repr

/-- The `BookService` object state: `self.books` and `self._next_id`. -/
structure BookService where
  books : List Book
  next_id : Nat
deriving DecidableEq, Repr

/-- `BookService.__init__`: empty list, counter 1. -/
def initService : BookService := { books := [], next_id := 1 }

/-- The distinct `ValueError`s the service can raise: the `create_book`
validation error, the invalid `sort_by` field error, and the error `int()`
raises on a malformed id string when sorting by `"id"`. -/
inductive SvcError where
  | emptyTitleOrAuthor
  | invalidSortField (field : String)
  | intParseFailure (s : String)
deriving DecidableEq, Repr

/-- The message attached to each `ValueError` in the source. -/
def errorMessage : SvcError → String
  | .emptyTitleOrAuthor => "Title and author must be non-empty strings"
  | .invalidSortField f => "Invalid sort field: " ++ f ++ ". Must be one of \x7bid, title, author\x7d"
  | .intParseFailure s => "invalid literal for int() with base 10: " ++ s

/-- `create_book`: strip both inputs, reject if either is empty, otherwise
append `{"id": str(self._next_id), ...}` and increment the counter. -/
def create_book (s : BookService) (title author : String) :
    Except SvcError (Book × BookService) :=
  let title := title.pyStrip
  let author := author.pyStrip
  if title == "" || author == "" then
    .error .emptyTitleOrAuthor
  else
    let book : Book := { id := Nat.repr s.next_id, title := title, author := author }
    .ok (book, { books := s.books ++ [book], next_id := s.next_id + 1 })

/-- `get_book`: linear scan for the first record with the exact id. -/
def get_book (s : BookService) (book_id : String) : Option Book :=
  s.books.find? (fun b => b.id == book_id)

/-- Is `needle` an initial segment of `hay`? (Helper for the substring test.) -/
def prefixCheck : List Char → List Char → Bool
  | [], _ => true
  | _ :: _, [] => false
  | a :: as, b :: bs => a == b && prefixCheck as bs

/-- Python's `needle in hay` on strings: contiguous-substring test over the
character sequences. -/
def subCheck : List Char → List Char → Bool
  | needle, [] => needle.isEmpty
  | needle, b :: rest => prefixCheck needle (b :: rest) || subCheck needle rest

/-- `search_lower in book["title"].lower() or search_lower in book["author"].lower()`
with `search_lower = search.lower()`. -/
def matchesSearch (t : String) (b : Book) : Bool :=
  subCheck t.pyLower.toList b.title.pyLower.toList ||
    subCheck t.pyLower.toList b.author.pyLower.toList

/-- The filtering stage of `list_books`: `if search:` is Python truthiness, so
`None` and `""` both leave the collection unfiltered. -/
def applySearch (search : Option String) (books : List Book) : List Book :=
  match search with
  | none => books
  | some t => if t == "" then books else books.filter (matchesSearch t)

/-- Numeric value of an ASCII digit character. -/
def digitVal (c : Char) : Nat := c.toNat - 48

/-- Accumulator loop of decimal parsing: fails on the first non-digit. -/
def parseLoop : Nat → List Char → Option Nat
  | x, [] => some x
  | x, c :: cs => if c.isDigit then parseLoop (x * 10 + digitVal c) cs else none

/-- Parse a nonempty all-digit character list as a natural number. -/
def parseDigits : List Char → Option Nat
  | [] => none
  | c :: cs => parseLoop 0 (c :: cs)

/-- Sign handling of `int(s)` after whitespace stripping: an optional single
leading sign, then decimal digits. -/
def pySignedParse : List Char → Option Int
  | [] => none
  | c :: rest =>
    if c == '+' then (parseDigits rest).map (fun n => (n : Int))
    else if c == '-' then (parseDigits rest).map (fun n => -(n : Int))
    else (parseDigits (c :: rest)).map (fun n => (n : Int))

/-- Python's `int(s)` on a string: surrounding whitespace is ignored, an
optional single leading sign is allowed, and the rest must be decimal digits;
anything else raises (modelled as `none`). -/
def pyInt? (s : String) : Option Int :=
  let cs := s.toList.dropWhile Char.isWhitespace
  let cs := (cs.reverse.dropWhile Char.isWhitespace).reverse
  pySignedParse cs

/-- The numeric sort key `int(book["id"])`; the default 0 is never used in a
run of `list_books`, because sorting by `"id"` first fails on any id that
`int()` cannot parse (see `badIdBook?`). -/
def idKey (b : Book) : Int := (pyInt? b.id).getD 0

/-- Code-point lexicographic `≤` on character lists: Python's string order. -/
def charListLE : List Char → List Char → Bool
  | [], _ => true
  | _ :: _, [] => false
  | a :: as, b :: bs =>
    if a.toNat < b.toNat then true
    else if b.toNat < a.toNat then false
    else charListLE as bs

/-- Python string `≤` (code-point lexicographic). -/
def strKeyLE (a b : String) : Bool := charListLE a.toList b.toList

/-- The key order `sort_key(a) <= sort_key(b)` used by `list_books`:
numeric for `"id"`, lowercased string for `"title"` / `"author"`. -/
def sortKeyLE (f : String) (a b : Book) : Bool :=
  if f == "id" then decide (idKey a ≤ idKey b)
  else if f == "title" then strKeyLE a.title.pyLower b.title.pyLower
  else strKeyLE a.author.pyLower b.author.pyLower

/-- Two records tie on the sort key for field `f`. -/
def sameKey (f : String) (a b : Book) : Bool := sortKeyLE f a b && sortKeyLE f b a

/-- The stable ascending sort underlying `list.sort`. -/
def stableSortLE (le : Book → Book → Bool) (xs : List Book) : List Book :=
  List.insertionSort (fun a b => le a b = true) xs

/-- `result.sort(key=sort_key, reverse=not ascending)`: for `reverse=True`
CPython reverses, stable-sorts ascending, and reverses again. -/
def pyListSort (le : Book → Book → Bool) (ascending : Bool) (xs : List Book) : List Book :=
  if ascending then stableSortLE le xs
  else (stableSortLE le xs.reverse).reverse

/-- First record (in pre-sort order) whose id `int()` cannot parse; key
computation raises there when sorting by `"id"`. -/
def badIdBook? (f : String) (books : List Book) : Option Book :=
  if f == "id" then books.find? (fun b => (pyInt? b.id).isNone) else none

/-- `list_books` of `02_08_CodeProject/book_service.py`: filter, then (when
`sort_by` is truthy) validate the field against `{"id", "title", "author"}`
and stable-sort with the direction flag. -/
def list_books (s : BookService) (search : Option String)
    (sort_by : Option String) (ascending : Bool) : Except SvcError (List Book) :=
  let result := applySearch search s.books
  match sort_by with
  | none => .ok result
  | some f =>
    if f == "" then .ok result
    else if !(f == "id" || f == "title" || f == "author") then
      .error (.invalidSortField f)
    else
      match badIdBook? f result with
      | some b => .error (.intParseFailure b.id)
      | none => .ok (pyListSort (sortKeyLE f) ascending result)

/-- `_sort_books` of the refactored service: validate the field, then sort a
copy of the list with the direction flag. -/
def sort_books (books : List Book) (sort_by : String) (ascending : Bool) :
    Except SvcError (List Book) :=
  if !(sort_by == "id" || sort_by == "title" || sort_by == "author") then
    .error (.invalidSortField sort_by)
  else
    match badIdBook? sort_by books with
    | some b => .error (.intParseFailure b.id)
    | none => .ok (pyListSort (sortKeyLE sort_by) ascending books)

/-- `list_books` of `02_11_CodeProject_refactor/endState/book_service.py`:
same filter, sorting delegated to `_sort_books`. -/
def list_books_refactored (s : BookService) (search : Option String)
    (sort_by : Option String) (ascending : Bool) : Except SvcError (List Book) :=
  let result := applySearch search s.books
  match sort_by with
  | none => .ok result
  | some f =>
    if f == "" then .ok result
    else sort_books result f ascending

/-- The `delete_book` scan: remove the first record with the given id,
returning `none` when no record matches. -/
def removeFirstBook : List Book → String → Option (List Book)
  | [], _ => none
  | b :: rest, i =>
    if b.id == i then some rest else (removeFirstBook rest i).map (fun l => b :: l)

/-- `delete_book`: pop the first matching record and return `True`, else
return `False` and leave the list untouched.  It never raises. -/
def delete_book (s : BookService) (book_id : String) : Bool × BookService :=
  match removeFirstBook s.books book_id with
  | some bs => (true, { s with books := bs })
  | none => (false, s)

/-- One client call against the service. -/
inductive Op where
  | create (title author : String)
  | get (book_id : String)
  | list (search : Option String) (sort_by : Option String) (ascending : Bool)
  | del (book_id : String)

/-- State transition of one call (a raising call leaves the state unchanged;
`get_book` and `list_books` never mutate). -/
def applyOp (s : BookService) : Op → BookService
  | .create t a =>
    match create_book s t a with
    | .ok (_, s2) => s2
    | .error _ => s
  | .get _ => s
  | .list _ _ _ => s
  | .del i => (delete_book s i).2

/-- Transition instrumented with the ghost history of all ids ever issued
(as the numbers the counter held when each id was assigned). -/
def applyOpH : BookService × List Nat → Op → BookService × List Nat
  | (s, hist), .create t a =>
    match create_book s t a with
    | .ok (_, s2) => (s2, hist ++ [s.next_id])
    | .error _ => (s, hist)
  | (s, hist), .get i => (applyOp s (.get i), hist)
  | (s, hist), .list se f asc => (applyOp s (.list se f asc), hist)
  | (s, hist), .del i => (applyOp s (.del i), hist)

/-- Run a call sequence from the freshly initialised service. -/
def runOpsH (ops : List Op) : BookService × List Nat :=
  ops.foldl applyOpH (initService, [])

/-- The catalog invariant: every issued id is below the counter, no id was
issued twice, every stored id is an issued id (rendered in decimal), and the
stored ids are pairwise distinct. -/
def GoodState (s : BookService) (hist : List Nat) : Prop :=
  (∀ n ∈ hist, n < s.next_id) ∧
  hist.Nodup ∧
  (∀ b ∈ s.books, ∃ n, n ∈ hist ∧ b.id = Nat.repr n) ∧
  (s.books.map Book.id).Nodup

/-! Decimal rendering.  `str(self._next_id)` is `Nat.repr`; the parse
round-trip below gives injectivity of id rendering and the numeric value of a
freshly issued id. -/

theorem digitChar_spec {d : Nat} (h : d < 10) :
    (Nat.digitChar d).isDigit = true ∧ (Nat.digitChar d).isWhitespace = false ∧
      Nat.digitChar d ≠ '+' ∧ Nat.digitChar d ≠ '-' ∧ digitVal (Nat.digitChar d) = d := by
  interval_cases d <;> exact ⟨by decide, by decide, by decide, by decide, by decide⟩

theorem parseLoop_toDigitsCore :
    ∀ (fuel n : Nat) (acc : List Char) (x : Nat), n < fuel →
      ∃ p, 0 < p ∧ parseLoop x (Nat.toDigitsCore 10 fuel n acc) = parseLoop (x * p + n) acc := by
  intro fuel
  induction fuel with
  | zero => intro n acc x h; omega
  | succ f ih =>
    intro n acc x h
    simp only [Nat.toDigitsCore]
    by_cases h10 : n / 10 = 0
    · refine ⟨10, by omega, ?_⟩
      rw [if_pos h10]
      have hd := digitChar_spec (show n % 10 < 10 by omega)
      have hn : n % 10 = n := by omega
      rw [hn] at hd
      rw [hn]
      simp only [parseLoop, hd.1, if_true, hd.2.2.2.2]
    · have hlt : n / 10 < f := by omega
      obtain ⟨p, hp, hrec⟩ := ih (n / 10) (Nat.digitChar (n % 10) :: acc) x hlt
      refine ⟨p * 10, by omega, ?_⟩
      rw [if_neg h10, hrec]
      have hd := digitChar_spec (show n % 10 < 10 by omega)
      have key : (x * p + n / 10) * 10 + n % 10 = x * (p * 10) + n := by
        have h2 := Nat.div_add_mod n 10
        calc (x * p + n / 10) * 10 + n % 10
            = x * (p * 10) + (10 * (n / 10) + n % 10) := by ring
          _ = x * (p * 10) + n := by rw [h2]
      simp only [parseLoop, hd.1, if_true, hd.2.2.2.2, key]

theorem toDigitsCore_ne_nil :
    ∀ (fuel n : Nat) (acc : List Char), 0 < fuel → Nat.toDigitsCore 10 fuel n acc ≠ [] := by
  intro fuel
  induction fuel with
  | zero => intro n acc h; exact absurd h (lt_irrefl 0)
  | succ f ih =>
    intro n acc _
    simp only [Nat.toDigitsCore]
    by_cases h10 : n / 10 = 0
    · simp [h10]
    · rw [if_neg h10]
      cases f with
      | zero => simp [Nat.toDigitsCore]
      | succ f2 => exact ih _ _ (Nat.succ_pos f2)

theorem toDigitsCore_mem (P : Char → Prop) (hdigit : ∀ d, d < 10 → P (Nat.digitChar d)) :
    ∀ (fuel n : Nat) (acc : List Char), (∀ c ∈ acc, P c) →
      ∀ c ∈ Nat.toDigitsCore 10 fuel n acc, P c := by
  intro fuel
  induction fuel with
  | zero =>
    intro n acc hacc c hc
    simp only [Nat.toDigitsCore] at hc
    exact hacc c hc
  | succ f ih =>
    intro n acc hacc c hc
    simp only [Nat.toDigitsCore] at hc
    by_cases h10 : n / 10 = 0
    · rw [if_pos h10] at hc
      rcases List.mem_cons.mp hc with rfl | hc2
      · exact hdigit _ (by omega)
      · exact hacc _ hc2
    · rw [if_neg h10] at hc
      refine ih _ _ (fun c2 hc2 => ?_) c hc
      rcases List.mem_cons.mp hc2 with rfl | h3
      · exact hdigit _ (by omega)
      · exact hacc _ h3

theorem repr_toList (n : Nat) : (Nat.repr n).toList = Nat.toDigits 10 n := rfl

theorem parseDigits_toDigits (n : Nat) : parseDigits (Nat.toDigits 10 n) = some n := by
  obtain ⟨p, hp, h⟩ := parseLoop_toDigitsCore (n + 1) n [] 0 (Nat.lt_succ_self n)
  have hne := toDigitsCore_ne_nil (n + 1) n [] (Nat.succ_pos n)
  rcases hl : Nat.toDigitsCore 10 (n + 1) n [] with _ | ⟨c, cs⟩
  · exact absurd hl hne
  · rw [hl] at h
    have h2 : parseLoop (0 * p + n) [] = some n := by simp [parseLoop]
    simp only [Nat.toDigits, hl, parseDigits]
    rw [h]
    exact h2

theorem parseDigits_repr (n : Nat) : parseDigits (Nat.repr n).toList = some n := by
  rw [repr_toList]; exact parseDigits_toDigits n

theorem repr_inj {m n : Nat} (h : Nat.repr m = Nat.repr n) : m = n := by
  have hm := parseDigits_repr m
  rw [h, parseDigits_repr n] at hm
  exact (Option.some_inj.mp hm).symm

theorem dropWhile_false {p : Char → Bool} {l : List Char}
    (h : ∀ c ∈ l, p c = false) : l.dropWhile p = l := by
  cases l with
  | nil => rfl
  | cons a as => simp [List.dropWhile_cons, h a (List.mem_cons_self a as)]

theorem pyInt_repr (n : Nat) : pyInt? (Nat.repr n) = some (n : Int) := by
  have hchars : ∀ c ∈ Nat.toDigits 10 n,
      c.isDigit = true ∧ c.isWhitespace = false ∧ c ≠ '+' ∧ c ≠ '-' := by
    refine toDigitsCore_mem _ (fun d hd => ?_) (n + 1) n [] (by simp)
    have h2 := digitChar_spec hd
    exact ⟨h2.1, h2.2.1, h2.2.2.1, h2.2.2.2.1⟩
  have hne := toDigitsCore_ne_nil (n + 1) n [] (Nat.succ_pos n)
  have hws : ∀ c ∈ Nat.toDigits 10 n, c.isWhitespace = false := fun c hc => (hchars c hc).2.1
  simp only [pyInt?, repr_toList]
  rw [dropWhile_false hws,
    dropWhile_false (fun c hc => hws c (List.mem_reverse.mp hc)), List.reverse_reverse]
  rcases hl : Nat.toDigits 10 n with _ | ⟨c, cs⟩
  · exact absurd hl hne
  · have hc := hchars c (hl ▸ List.mem_cons_self c cs)
    have hplus : (c == '+') = false := by simpa using hc.2.2.1
    have hminus : (c == '-') = false := by simpa using hc.2.2.2
    have hpd := parseDigits_toDigits n
    rw [hl] at hpd
    simp only [pySignedParse, hplus, hminus, if_false, Bool.false_eq_true, hpd, Option.map_some]
    rfl

/-! Order properties of the sort-key comparators. -/

theorem charListLE_cons_iff {a b : Char} {as bs : List Char} :
    charListLE (a :: as) (b :: bs) = true ↔
      a.toNat < b.toNat ∨ (a.toNat = b.toNat ∧ charListLE as bs = true) := by
  simp only [charListLE]
  split_ifs with h1 h2
  · simp [h1]
  · constructor
    · intro h3; exact absurd h3 (by simp)
    · rintro (h3 | ⟨h3, _⟩) <;> omega
  · constructor
    · intro h3; exact Or.inr ⟨by omega, h3⟩
    · rintro (h3 | ⟨_, h3⟩)
      · omega
      · exact h3

theorem charListLE_total : ∀ as bs, charListLE as bs = true ∨ charListLE bs as = true
  | [], _ => Or.inl rfl
  | _ :: _, [] => Or.inr rfl
  | a :: as, b :: bs => by
    rw [charListLE_cons_iff, charListLE_cons_iff]
    rcases Nat.lt_trichotomy a.toNat b.toNat with h | h | h
    · exact Or.inl (Or.inl h)
    · rcases charListLE_total as bs with h2 | h2
      · exact Or.inl (Or.inr ⟨h, h2⟩)
      · exact Or.inr (Or.inr ⟨h.symm, h2⟩)
    · exact Or.inr (Or.inl h)

theorem charListLE_trans :
    ∀ as bs cs, charListLE as bs = true → charListLE bs cs = true → charListLE as cs = true
  | [], _, _ => fun _ _ => rfl
  | _ :: _, [], _ => fun h1 _ => by simp [charListLE] at h1
  | _ :: _, _ :: _, [] => fun _ h2 => by simp [charListLE] at h2
  | a :: as, b :: bs, c :: cs => fun h1 h2 => by
    rw [charListLE_cons_iff] at h1 h2 ⊢
    rcases h1 with h1 | ⟨h1e, h1r⟩ <;> rcases h2 with h2 | ⟨h2e, h2r⟩
    · exact Or.inl (by omega)
    · exact Or.inl (by omega)
    · exact Or.inl (by omega)
    · exact Or.inr ⟨by omega, charListLE_trans as bs cs h1r h2r⟩

theorem sortKeyLE_total (f : String) (a b : Book) :
    sortKeyLE f a b = true ∨ sortKeyLE f b a = true := by
  unfold sortKeyLE
  split_ifs with h1 h2
  · simp only [decide_eq_true_eq]
    exact Int.le_total _ _
  · exact charListLE_total _ _
  · exact charListLE_total _ _

theorem sortKeyLE_trans (f : String) (a b c : Book) :
    sortKeyLE f a b = true → sortKeyLE f b c = true → sortKeyLE f a c = true := by
  unfold sortKeyLE
  split_ifs with h1 h2
  · simp only [decide_eq_true_eq]
    exact fun h3 h4 => le_trans h3 h4
  · exact charListLE_trans _ _ _
  · exact charListLE_trans _ _ _

/-- Two sorted permutations of each other are equal, given antisymmetry of the
comparator on the members of the list (the general `le` need not be
antisymmetric: distinct records may tie on a sort key). -/
theorem sorted_perm_eq {α : Type} (le : α → α → Bool) :
    ∀ (l₁ l₂ : List α),
      (∀ a ∈ l₁, ∀ b ∈ l₁, le a b = true → le b a = true → a = b) →
      l₁.Perm l₂ → l₁.Pairwise (fun a b => le a b = true) →
      l₂.Pairwise (fun a b => le a b = true) → l₁ = l₂
  | [], _, _, hp, _, _ => (hp.symm.eq_nil).symm
  | a :: t₁, l₂, anti, hp, hs₁, hs₂ => by
    cases l₂ with
    | nil => exact absurd hp.eq_nil (by simp)
    | cons b t₂ =>
      by_cases hab : a = b
      · subst hab
        have ht := hp.cons_inv
        have IH := sorted_perm_eq le t₁ t₂
          (fun x hx y hy => anti x (List.mem_cons_of_mem _ hx) y (List.mem_cons_of_mem _ hy))
          ht (List.pairwise_cons.mp hs₁).2 (List.pairwise_cons.mp hs₂).2
        rw [IH]
      · exfalso
        have hbmem : b ∈ a :: t₁ := hp.mem_iff.mpr (List.mem_cons_self b t₂)
        have hamem : a ∈ b :: t₂ := hp.mem_iff.mp (List.mem_cons_self a t₁)
        have hb₁ : b ∈ t₁ := by
          rcases List.mem_cons.mp hbmem with h | h
          · exact absurd h.symm hab
          · exact h
        have ha₂ : a ∈ t₂ := by
          rcases List.mem_cons.mp hamem with h | h
          · exact absurd h hab
          · exact h
        have h1 : le a b = true := (List.pairwise_cons.mp hs₁).1 b hb₁
        have h2 : le b a = true := (List.pairwise_cons.mp hs₂).1 a ha₂
        exact hab (anti a (List.mem_cons_self a t₁) b hbmem h1 h2)

theorem stableSortLE_perm (le : Book → Book → Bool) (xs : List Book) :
    (stableSortLE le xs).Perm xs :=
  List.perm_insertionSort _ xs

theorem stableSortLE_sorted (f : String) (xs : List Book) :
    (stableSortLE (sortKeyLE f) xs).Pairwise (fun a b => sortKeyLE f a b = true) := by
  haveI : IsTotal Book (fun a b => sortKeyLE f a b = true) := ⟨fun a b => sortKeyLE_total f a b⟩
  haveI : IsTrans Book (fun a b => sortKeyLE f a b = true) := ⟨fun a b c => sortKeyLE_trans f a b c⟩
  exact List.sorted_insertionSort _ xs

/-- When no two records of `xs` tie on the sort key, sorting `xs.reverse`
gives the same list as sorting `xs`: the ascending sort is unique. -/
theorem stableSort_reverse_eq (f : String) (xs : List Book)
    (anti : ∀ a ∈ xs, ∀ b ∈ xs, sameKey f a b = true → a = b) :
    stableSortLE (sortKeyLE f) xs.reverse = stableSortLE (sortKeyLE f) xs := by
  apply sorted_perm_eq (sortKeyLE f)
  · intro a ha b hb h1 h2
    have ha2 : a ∈ xs := List.mem_reverse.mp ((stableSortLE_perm _ _).mem_iff.mp ha)
    have hb2 : b ∈ xs := List.mem_reverse.mp ((stableSortLE_perm _ _).mem_iff.mp hb)
    exact anti a ha2 b hb2 (by simp [sameKey, h1, h2])
  · exact ((stableSortLE_perm _ _).trans (List.reverse_perm xs)).trans
      (stableSortLE_perm _ xs).symm
  · exact stableSortLE_sorted f xs.reverse
  · exact stableSortLE_sorted f xs

/-- Stability of the full sort step, in both directions: a tied pair in
pre-sort order stays in that order. -/
theorem pyListSort_pair (f : String) (asc : Bool) {a b : Book} {xs : List Book}
    (hkey : sameKey f a b = true) (hsub : [a, b].Sublist xs) :
    [a, b].Sublist (pyListSort (sortKeyLE f) asc xs) := by
  have hkey2 : sortKeyLE f a b = true ∧ sortKeyLE f b a = true := by
    simpa [sameKey, Bool.and_eq_true] using hkey
  cases asc with
  | true =>
    show [a, b].Sublist (stableSortLE (sortKeyLE f) xs)
    exact List.pair_sublist_insertionSort (r := fun x y => sortKeyLE f x y = true) hkey2.1 hsub
  | false =>
    show [a, b].Sublist ((stableSortLE (sortKeyLE f) xs.reverse).reverse)
    have h1 : [b, a].Sublist xs.reverse := by simpa using hsub.reverse
    have h2 := List.pair_sublist_insertionSort (r := fun x y => sortKeyLE f x y = true) hkey2.2 h1
    simpa using h2.reverse

/-! Case analysis of `list_books`. -/

theorem badIdBook?_none_of_wf {books : List Book} (f : String)
    (h : ∀ b ∈ books, (pyInt? b.id).isSome = true) : badIdBook? f books = none := by
  unfold badIdBook?
  split_ifs with h1
  · rw [List.find?_eq_none]
    intro b hb
    obtain ⟨v, hv⟩ := Option.isSome_iff_exists.mp (h b hb)
    simp [hv]
  · rfl

theorem list_books_no_sort (s : BookService) (search : Option String) (asc : Bool) :
    list_books s search none asc = .ok (applySearch search s.books) := rfl

theorem list_books_empty_field (s : BookService) (search : Option String) (asc : Bool) :
    list_books s search (some "") asc = .ok (applySearch search s.books) := rfl

theorem list_books_invalid_field (s : BookService) (search : Option String) (asc : Bool)
    (f : String) (h0 : f ≠ "") (h1 : f ≠ "id") (h2 : f ≠ "title") (h3 : f ≠ "author") :
    list_books s search (some f) asc = .error (.invalidSortField f) := by
  simp [list_books, h0, h1, h2, h3]

theorem list_books_sorted (s : BookService) (search : Option String) (asc : Bool)
    (f : String) (hf : f = "id" ∨ f = "title" ∨ f = "author")
    (hok : badIdBook? f (applySearch search s.books) = none) :
    list_books s search (some f) asc =
      .ok (pyListSort (sortKeyLE f) asc (applySearch search s.books)) := by
  rcases hf with rfl | rfl | rfl <;> simp [list_books, hok]

theorem list_books_error_inv (s : BookService) (search : Option String) (asc : Bool)
    (g : Option String) (e : SvcError) (he : list_books s search g asc = .error e) :
    (∃ f, g = some f ∧ f ≠ "" ∧ f ≠ "id" ∧ f ≠ "title" ∧ f ≠ "author" ∧
      e = .invalidSortField f) ∨
    (∃ b, g = some "id" ∧ b ∈ applySearch search s.books ∧ pyInt? b.id = none ∧
      e = .intParseFailure b.id) := by
  cases g with
  | none => rw [list_books_no_sort] at he; exact absurd he (by simp)
  | some f =>
    by_cases h0 : f = ""
    · subst h0; rw [list_books_empty_field] at he; exact absurd he (by simp)
    · by_cases h1 : f = "id"
      · subst h1
        right
        rw [show list_books s search (some "id") asc =
            (match badIdBook? "id" (applySearch search s.books) with
             | some b => .error (.intParseFailure b.id)
             | none => .ok (pyListSort (sortKeyLE "id") asc (applySearch search s.books))) from
          by simp [list_books]] at he
        rcases hbad : badIdBook? "id" (applySearch search s.books) with _ | b
        · rw [hbad] at he; exact absurd he (by simp)
        · rw [hbad] at he
          have hfind : List.find? (fun b => (pyInt? b.id).isNone)
              (applySearch search s.books) = some b := by
            simpa [badIdBook?] using hbad
          have hmem := List.mem_of_find?_eq_some hfind
          have hprop := List.find?_some hfind
          refine ⟨b, rfl, hmem, ?_, by simpa using he.symm⟩
          simpa [Option.isNone_iff_eq_none] using hprop
      · by_cases h2 : f = "title"
        · subst h2
          rw [list_books_sorted s search asc "title" (by simp) (by simp [badIdBook?])] at he
          exact absurd he (by simp)
        · by_cases h3 : f = "author"
          · subst h3
            rw [list_books_sorted s search asc "author" (by simp) (by simp [badIdBook?])] at he
            exact absurd he (by simp)
          · rw [list_books_invalid_field s search asc f h0 h1 h2 h3] at he
            left
            exact ⟨f, rfl, h0, h1, h2, h3, by simpa using he.symm⟩

/-! The `delete_book` scan. -/

theorem removeFirstBook_none :
    ∀ (l : List Book) (i : String), removeFirstBook l i = none ↔ ∀ b ∈ l, b.id ≠ i
  | [], i => by simp [removeFirstBook]
  | b :: rest, i => by
    simp only [removeFirstBook]
    by_cases h : b.id = i
    · simp [h]
    · simp [h, Option.map_eq_none', removeFirstBook_none rest i]

theorem removeFirstBook_some :
    ∀ (l : List Book) (i : String) (l2 : List Book), removeFirstBook l i = some l2 →
      ∃ pre b post, l = pre ++ b :: post ∧ b.id = i ∧ (∀ x ∈ pre, x.id ≠ i) ∧ l2 = pre ++ post
  | [], _, _ => by simp [removeFirstBook]
  | b :: rest, i, l2 => by
    simp only [removeFirstBook]
    by_cases h : b.id = i
    · rw [if_pos (by simpa using h)]
      intro he
      refine ⟨[], b, rest, by simp, h, by simp, ?_⟩
      simpa using he.symm
    · rw [if_neg (by simpa using h)]
      intro he
      obtain ⟨l3, hl3, rfl⟩ := Option.map_eq_some'.mp he
      obtain ⟨pre, bb, post, h1, h2, h3, h4⟩ := removeFirstBook_some rest i l3 hl3
      exact ⟨b :: pre, bb, post, by simp [h1], h2, by
        intro x hx
        rcases List.mem_cons.mp hx with rfl | hx2
        · exact h
        · exact h3 x hx2, by simp [h4]⟩

/-! `create_book` characterisation. -/

theorem create_book_ok {s : BookService} {t a : String} {book : Book} {s2 : BookService}
    (h : create_book s t a = .ok (book, s2)) :
    book = { id := Nat.repr s.next_id, title := t.pyStrip, author := a.pyStrip } ∧
      s2 = { books := s.books ++ [book], next_id := s.next_id + 1 } := by
  simp only [create_book] at h
  split_ifs at h with hcond
  simp only [Except.ok.injEq, Prod.mk.injEq] at h
  refine ⟨h.1.symm, ?_⟩
  rw [← h.2, ← h.1]

theorem create_book_error_iff {s : BookService} {t a : String} :
    create_book s t a = .error .emptyTitleOrAuthor ↔ (t.pyStrip = "" ∨ a.pyStrip = "") := by
  simp only [create_book]
  split_ifs with hcond
  · exact ⟨fun _ => by simpa using hcond, fun _ => rfl⟩
  · constructor
    · intro he; exact absurd he (by simp)
    · intro hr; exact absurd hr (by simpa using hcond)

theorem create_book_error_kind {s : BookService} {t a : String} {e : SvcError}
    (h : create_book s t a = .error e) : e = .emptyTitleOrAuthor := by
  simp only [create_book] at h
  split_ifs at h
  simpa using h.symm

theorem create_book_ok_of_nonempty {s : BookService} {t a : String}
    (ht : t.pyStrip ≠ "") (ha : a.pyStrip ≠ "") :
    create_book s t a =
      .ok ({ id := Nat.repr s.next_id, title := t.pyStrip, author := a.pyStrip },
           { books := s.books ++
               [{ id := Nat.repr s.next_id, title := t.pyStrip, author := a.pyStrip }],
             next_id := s.next_id + 1 }) := by
  simp only [create_book]
  rw [if_neg (by simp [ht, ha])]

/-! Preservation of the catalog invariant. -/

theorem goodState_init : GoodState initService [] := by
  simp [GoodState, initService]

theorem goodState_create {s : BookService} {hist : List Nat} (h : GoodState s hist)
    (book : Book) (hbook : book.id = Nat.repr s.next_id) :
    GoodState { books := s.books ++ [book], next_id := s.next_id + 1 }
      (hist ++ [s.next_id]) := by
  obtain ⟨h1, h2, h3, h4⟩ := h
  refine ⟨?_, ?_, ?_, ?_⟩
  · intro n hn
    rcases List.mem_append.mp hn with hn | hn
    · exact Nat.lt_succ_of_lt (h1 n hn)
    · simp only [List.mem_singleton] at hn
      subst hn
      exact Nat.lt_succ_self _
  · rw [List.nodup_append]
    refine ⟨h2, List.nodup_singleton _, ?_⟩
    intro n hn hn2
    simp only [List.mem_singleton] at hn2
    subst hn2
    exact absurd (h1 _ hn) (lt_irrefl _)
  · intro b hb
    rcases List.mem_append.mp hb with hb | hb
    · obtain ⟨n, hn1, hn2⟩ := h3 b hb
      exact ⟨n, List.mem_append_left _ hn1, hn2⟩
    · simp only [List.mem_singleton] at hb
      subst hb
      exact ⟨s.next_id, List.mem_append_right _ (by simp), hbook⟩
  · show ((s.books ++ [book]).map Book.id).Nodup
    rw [List.map_append, List.nodup_append]
    refine ⟨h4, by simp, ?_⟩
    intro x hx hx2
    simp only [List.map_cons, List.map_nil, List.mem_singleton] at hx2
    obtain ⟨b, hb, rfl⟩ := List.mem_map.mp hx
    obtain ⟨n, hn1, hn2⟩ := h3 b hb
    rw [hx2, hbook] at hn2
    have hn3 := repr_inj hn2
    exact absurd (h1 n hn1) (by omega)

theorem goodState_applyOpH {s : BookService} {hist : List Nat} (op : Op)
    (h : GoodState s hist) :
    GoodState (applyOpH (s, hist) op).1 (applyOpH (s, hist) op).2 := by
  obtain ⟨h1, h2, h3, h4⟩ := h
  cases op with
  | get i => exact ⟨h1, h2, h3, h4⟩
  | list se f asc => exact ⟨h1, h2, h3, h4⟩
  | create t a =>
    rcases hc : create_book s t a with e | ⟨book, s2⟩
    · simp only [applyOpH, hc]
      exact ⟨h1, h2, h3, h4⟩
    · simp only [applyOpH, hc]
      obtain ⟨hbook, hs2⟩ := create_book_ok hc
      rw [hs2]
      exact goodState_create ⟨h1, h2, h3, h4⟩ book (by rw [hbook])
  | del i =>
    rcases hr : removeFirstBook s.books i with _ | bs
    · simp only [applyOpH, applyOp, delete_book, hr]
      exact ⟨h1, h2, h3, h4⟩
    · simp only [applyOpH, applyOp, delete_book, hr]
      obtain ⟨pre, b, post, hdec, hid, hpre, hbs⟩ := removeFirstBook_some _ _ _ hr
      subst hbs
      have hsub : (pre ++ post).Sublist s.books := by
        rw [hdec]
        exact List.Sublist.append (List.Sublist.refl pre) (List.sublist_cons_self b post)
      refine ⟨h1, h2, ?_, ?_⟩
      · intro x hx
        exact h3 x (hsub.mem hx)
      · exact List.Nodup.sublist (hsub.map Book.id) h4

theorem goodState_runOpsH (ops : List Op) : GoodState (runOpsH ops).1 (runOpsH ops).2 := by
  suffices h : ∀ p : BookService × List Nat, GoodState p.1 p.2 →
      GoodState (ops.foldl applyOpH p).1 (ops.foldl applyOpH p).2 by
    exact h (initService, []) goodState_init
  induction ops with
  | nil => intro p h; exact h
  | cons op rest ih =>
    intro p h
    obtain ⟨s, hist⟩ := p
    exact ih _ (goodState_applyOpH op h)

/-! The substring test against its specification. -/

/-- Specification-side reading of "contains as a substring". -/
def SubStr (needle hay : String) : Prop :=
  ∃ l r, hay.toList = l ++ needle.toList ++ r

theorem prefixCheck_iff : ∀ (ns hs : List Char), prefixCheck ns hs = true ↔ ∃ r, hs = ns ++ r
  | [], hs => by simp [prefixCheck]
  | c :: ns, [] => by simp [prefixCheck]
  | c :: ns, d :: hs => by
    simp only [prefixCheck, Bool.and_eq_true, beq_iff_eq, List.cons_append, List.cons.injEq]
    rw [prefixCheck_iff ns hs]
    constructor
    · rintro ⟨rfl, r, rfl⟩
      exact ⟨r, rfl, rfl⟩
    · rintro ⟨r, rfl, rfl⟩
      exact ⟨rfl, r, rfl⟩

theorem subCheck_iff : ∀ (ns hs : List Char), subCheck ns hs = true ↔ ∃ l r, hs = l ++ ns ++ r
  | ns, [] => by
    simp only [subCheck, List.isEmpty_iff]
    constructor
    · rintro rfl
      exact ⟨[], [], rfl⟩
    · rintro ⟨l, r, he⟩
      have h2 : l ++ ns ++ r = [] := he.symm
      simp only [List.append_eq_nil] at h2
      exact h2.1.2
  | ns, d :: hs => by
    simp only [subCheck, Bool.or_eq_true]
    rw [prefixCheck_iff, subCheck_iff ns hs]
    constructor
    · rintro (⟨r, he⟩ | ⟨l, r, he⟩)
      · exact ⟨[], r, by simp [he]⟩
      · exact ⟨d :: l, r, by simp [he]⟩
    · rintro ⟨l, r, he⟩
      cases l with
      | nil => exact Or.inl ⟨r, by simpa using he⟩
      | cons x l =>
        simp only [List.cons_append, List.cons.injEq] at he
        exact Or.inr ⟨l, r, he.2⟩

theorem matchesSearch_iff (t : String) (b : Book) :
    matchesSearch t b = true ↔
      SubStr t.pyLower b.title.pyLower ∨ SubStr t.pyLower b.author.pyLower := by
  simp only [matchesSearch, Bool.or_eq_true, subCheck_iff, SubStr]

/-! Remaining helpers. -/

theorem applySearch_sublist (search : Option String) (books : List Book) :
    (applySearch search books).Sublist books := by
  cases search with
  | none => exact List.Sublist.refl _
  | some t =>
    simp only [applySearch]
    split_ifs
    · exact List.Sublist.refl _
    · exact List.filter_sublist _

theorem list_books_badId (s : BookService) (search : Option String) (asc : Bool)
    (f : String) (hf : f = "id" ∨ f = "title" ∨ f = "author") {b : Book}
    (hb : badIdBook? f (applySearch search s.books) = some b) :
    list_books s search (some f) asc = .error (.intParseFailure b.id) := by
  rcases hf with rfl | rfl | rfl <;> simp [list_books, hb]

theorem delete_book_found {s : BookService} {i : String} {b : Book}
    (hids : (s.books.map Book.id).Nodup) (hb : b ∈ s.books) (hid : b.id = i) :
    ∃ pre post, s.books = pre ++ b :: post ∧ (∀ x ∈ pre, x.id ≠ i) ∧
      (∀ x ∈ post, x.id ≠ i) ∧
      delete_book s i = (true, { books := pre ++ post, next_id := s.next_id }) := by
  rcases hr : removeFirstBook s.books i with _ | bs
  · exact absurd hid ((removeFirstBook_none s.books i).mp hr b hb)
  · obtain ⟨pre, bb, post, hdec, hbbid, hpre, hbs⟩ := removeFirstBook_some _ _ _ hr
    have hnodup2 : ((bb :: post).map Book.id).Nodup := by
      rw [hdec, List.map_append, List.nodup_append] at hids
      exact hids.2.1
    have hpost : ∀ x ∈ post, x.id ≠ i := by
      intro x hx hxid
      have h5 : bb.id ∉ post.map Book.id := (List.nodup_cons.mp hnodup2).1
      exact h5 (by rw [hbbid, ← hxid]; exact List.mem_map_of_mem Book.id hx)
    have hbbb : b = bb := by
      rw [hdec] at hb
      rcases List.mem_append.mp hb with h | h
      · exact absurd hid (hpre b h)
      · rcases List.mem_cons.mp h with h | h
        · exact h
        · exact absurd hid (hpost b h)
    subst hbbb
    refine ⟨pre, post, hdec, hpre, hpost, ?_⟩
    rw [hbs] at hr
    simp [delete_book, hr]

/-! Sample data for concrete witnesses and counterexamples. -/

def gatsby : Book := { id := "1", title := "The Great Gatsby", author := "F. Scott Fitzgerald" }

def mockingbird : Book := { id := "2", title := "To Kill a Mockingbird", author := "Harper Lee" }

def sampleSvc : BookService := { books := [gatsby, mockingbird], next_id := 3 }

def tieA : Book := { id := "1", title := "Alpha", author := "X" }

def tieB : Book := { id := "2", title := "Alpha", author := "Y" }

def tieSvc : BookService := { books := [tieA, tieB], next_id := 3 }

/-! Claim theorems. -/

/-- C1 (counterexample): the claim says a supplied `sortBy` outside
`{"id","title","author"}` -- explicitly including the empty string -- raises a
validation error.  But `if sort_by:` treats `""` as absent: `list_books` with
`sortBy = ""` returns the records without error. -/
theorem claim1_counterexample :
    list_books sampleSvc none (some "") true = Except.ok [gatsby, mockingbird] ∧
    (some "" : Option String) ≠ none ∧
    "" ∉ (["id", "title", "author"] : List String) :=
  ⟨rfl, by simp, by decide⟩

/-- C1 (amended): a supplied, NON-EMPTY `sortBy` outside
`{"id","title","author"}` raises the validation error naming the offending
value and the allowed field names; the empty string is treated as absent (no
sort, no error).  Moreover every `sortBy`-related error of `list_books` is of
exactly this shape, except that sorting by `"id"` also fails when a stored id
cannot be parsed by `int()` -- which cannot happen when all ids parse, as in
every reachable catalog. -/
theorem claim1_sortBy_validation (s : BookService) (search : Option String) (asc : Bool)
    (f : String) (h0 : f ≠ "") (h1 : f ≠ "id") (h2 : f ≠ "title") (h3 : f ≠ "author") :
    list_books s search (some f) asc = .error (.invalidSortField f) ∧
    SubStr f (errorMessage (.invalidSortField f)) ∧
    SubStr "id" (errorMessage (.invalidSortField f)) ∧
    SubStr "title" (errorMessage (.invalidSortField f)) ∧
    SubStr "author" (errorMessage (.invalidSortField f)) ∧
    (∀ (g : Option String) (e : SvcError), list_books s search g asc = .error e →
      ∃ u, g = some u ∧ u ≠ "" ∧
        ((u ∉ (["id", "title", "author"] : List String) ∧ e = .invalidSortField u) ∨
         (u = "id" ∧ ∃ b ∈ applySearch search s.books, pyInt? b.id = none ∧
            e = .intParseFailure b.id))) ∧
    ((∀ b ∈ s.books, (pyInt? b.id).isSome = true) →
      ∀ u ∈ (["id", "title", "author"] : List String),
        ∃ out, list_books s search (some u) asc = .ok out) := by
  have hmsg : (errorMessage (.invalidSortField f)).toList =
      "Invalid sort field: ".toList ++ f.toList ++
        ". Must be one of \x7bid, title, author\x7d".toList := by
    show ("Invalid sort field: " ++ f ++
        ". Must be one of \x7bid, title, author\x7d").data = _
    simp [String.data_append]
  refine ⟨list_books_invalid_field s search asc f h0 h1 h2 h3, ?_, ?_, ?_, ?_, ?_, ?_⟩
  · exact ⟨"Invalid sort field: ".toList,
      ". Must be one of \x7bid, title, author\x7d".toList, hmsg⟩
  · refine ⟨"Invalid sort field: ".toList ++ f.toList ++ ". Must be one of \x7b".toList,
      ", title, author\x7d".toList, ?_⟩
    rw [hmsg]
    have hS : ". Must be one of \x7bid, title, author\x7d".toList =
        ". Must be one of \x7b".toList ++ "id".toList ++ ", title, author\x7d".toList := by
      decide
    rw [hS]
    simp [List.append_assoc]
  · refine ⟨"Invalid sort field: ".toList ++ f.toList ++
        ". Must be one of \x7bid, ".toList, ", author\x7d".toList, ?_⟩
    rw [hmsg]
    have hS : ". Must be one of \x7bid, title, author\x7d".toList =
        ". Must be one of \x7bid, ".toList ++ "title".toList ++ ", author\x7d".toList := by
      decide
    rw [hS]
    simp [List.append_assoc]
  · refine ⟨"Invalid sort field: ".toList ++ f.toList ++
        ". Must be one of \x7bid, title, ".toList, "\x7d".toList, ?_⟩
    rw [hmsg]
    have hS : ". Must be one of \x7bid, title, author\x7d".toList =
        ". Must be one of \x7bid, title, ".toList ++ "author".toList ++ "\x7d".toList := by
      decide
    rw [hS]
    simp [List.append_assoc]
  · intro g e he
    rcases list_books_error_inv s search asc g e he with
      ⟨u, hg, hu0, hu1, hu2, hu3, hue⟩ | ⟨b, hg, hbm, hbp, hbe⟩
    · exact ⟨u, hg, hu0, Or.inl ⟨by simp [hu1, hu2, hu3], hue⟩⟩
    · exact ⟨"id", hg, by simp, Or.inr ⟨rfl, b, hbm, hbp, hbe⟩⟩
  · intro hwf u hu
    refine ⟨pyListSort (sortKeyLE u) asc (applySearch search s.books), ?_⟩
    have hwf2 : ∀ b ∈ applySearch search s.books, (pyInt? b.id).isSome = true :=
      fun b hb => hwf b ((applySearch_sublist search s.books).mem hb)
    have hu2 : u = "id" ∨ u = "title" ∨ u = "author" := by simpa using hu
    exact list_books_sorted s search asc u hu2 (badIdBook?_none_of_wf u hwf2)

/-- C1 (witness). -/
theorem claim1_witness :
    list_books sampleSvc none (some "bogus") true =
      Except.error (SvcError.invalidSortField "bogus") :=
  (claim1_sortBy_validation sampleSvc none true "bogus"
    (by decide) (by decide) (by decide) (by decide)).1

/-- C2 (counterexample): two records tie on the `"title"` key; the stable
descending sort keeps them in creation order, so the descending result is NOT
the reverse of the ascending result. -/
theorem claim2_counterexample :
    list_books tieSvc none (some "title") true = Except.ok [tieA, tieB] ∧
    list_books tieSvc none (some "title") false = Except.ok [tieA, tieB] ∧
    [tieA, tieB] ≠ List.reverse [tieA, tieB] :=
  ⟨rfl, rfl, by decide⟩

/-- C2 (amended): when no two filtered records tie on the sort key,
`ascending=false` returns exactly the reverse of the `ascending=true` result.
(With ties the code keeps equal-key records in pre-sort order in both
directions instead of reversing them.) -/
theorem claim2_desc_reverses_asc (s : BookService) (search : Option String) (f : String)
    (hf : f = "id" ∨ f = "title" ∨ f = "author")
    (hdist : ∀ a ∈ applySearch search s.books, ∀ b ∈ applySearch search s.books,
      sameKey f a b = true → a = b) :
    ∀ out, list_books s search (some f) true = .ok out →
      list_books s search (some f) false = .ok out.reverse := by
  intro out hout
  rcases hb : badIdBook? f (applySearch search s.books) with _ | b
  · rw [list_books_sorted s search true f hf hb] at hout
    have hout2 : out = pyListSort (sortKeyLE f) true (applySearch search s.books) := by
      simpa using hout.symm
    rw [list_books_sorted s search false f hf hb, hout2]
    show Except.ok ((stableSortLE (sortKeyLE f) (applySearch search s.books).reverse).reverse) = _
    rw [stableSort_reverse_eq f _ hdist]
    rfl
  · rw [list_books_badId s search true f hf hb] at hout
    exact absurd hout (by simp)

/-- C2 (witness). -/
theorem claim2_witness :
    list_books sampleSvc none (some "title") false =
      Except.ok (List.reverse [gatsby, mockingbird]) :=
  claim2_desc_reverses_asc sampleSvc none "title" (by simp) (by decide)
    [gatsby, mockingbird] rfl

/-- C3: the sort is stable in both directions: two records that tie on the
sort key and stand in a given relative order in the filtered (pre-sort)
sequence stand in that same relative order in the output, for `ascending=true`
and for `ascending=false` alike. -/
theorem claim3_sort_stability (s : BookService) (search : Option String) (f : String)
    (asc : Bool) (a b : Book) (out : List Book)
    (hf : f = "id" ∨ f = "title" ∨ f = "author")
    (hout : list_books s search (some f) asc = .ok out)
    (hpair : [a, b].Sublist (applySearch search s.books))
    (hkey : sameKey f a b = true) :
    [a, b].Sublist out := by
  rcases hb : badIdBook? f (applySearch search s.books) with _ | bb
  · rw [list_books_sorted s search asc f hf hb] at hout
    have hout2 : out = pyListSort (sortKeyLE f) asc (applySearch search s.books) := by
      simpa using hout.symm
    rw [hout2]
    exact pyListSort_pair f asc hkey hpair
  · rw [list_books_badId s search asc f hf hb] at hout
    exact absurd hout (by simp)

/-- C3 (witness): the tied pair of `tieSvc`, sorted descending by title,
stays in creation order. -/
theorem claim3_witness : [tieA, tieB].Sublist [tieA, tieB] :=
  claim3_sort_stability tieSvc none "title" false tieA tieB [tieA, tieB]
    (by simp) rfl (List.Sublist.refl _) (by decide)

/-- C4: on inputs that are non-empty after stripping, `create_book` succeeds,
returns the record `{id := str(counter), title, author stripped}`, appends it
at the end, increments the counter by one, and the new id differs from every
previously issued id and is numerically strictly greater than all of them
(the history `hist` lists all ids ever issued, per the catalog invariant). -/
theorem claim4_create_success (s : BookService) (hist : List Nat) (t a : String)
    (hg : GoodState s hist) (ht : t.pyStrip ≠ "") (ha : a.pyStrip ≠ "") :
    ∃ book s2, create_book s t a = .ok (book, s2) ∧
      book.id = Nat.repr s.next_id ∧ book.title = t.pyStrip ∧ book.author = a.pyStrip ∧
      s2.books = s.books ++ [book] ∧ s2.next_id = s.next_id + 1 ∧
      pyInt? book.id = some (s.next_id : Int) ∧
      (∀ n ∈ hist, Nat.repr n ≠ book.id ∧ (n : Int) < (s.next_id : Int)) := by
  refine ⟨_, _, create_book_ok_of_nonempty ht ha, rfl, rfl, rfl, rfl, rfl, pyInt_repr _, ?_⟩
  intro n hn
  have hlt := hg.1 n hn
  constructor
  · intro he
    have := repr_inj he
    omega
  · exact_mod_cast hlt

/-- C4 (witness). -/
theorem claim4_witness :
    ∃ book s2, create_book initService "A" "B" = .ok (book, s2) ∧
      book.id = Nat.repr initService.next_id ∧ book.title = "A".pyStrip ∧
      book.author = "B".pyStrip ∧
      s2.books = initService.books ++ [book] ∧ s2.next_id = initService.next_id + 1 ∧
      pyInt? book.id = some (initService.next_id : Int) ∧
      (∀ n ∈ ([] : List Nat), Nat.repr n ≠ book.id ∧
        (n : Int) < (initService.next_id : Int)) :=
  claim4_create_success initService [] "A" "B" goodState_init (by decide) (by decide)

/-- C5: along every call sequence from the fresh service, the stored ids are
pairwise distinct, the counter strictly exceeds every id ever issued, no id is
ever issued twice (so a deleted id is never assigned again), and every stored
id is one of the issued ids. -/
theorem claim5_reachable_invariants (ops : List Op) :
    ((runOpsH ops).1.books.map Book.id).Nodup ∧
    (∀ n ∈ (runOpsH ops).2, n < (runOpsH ops).1.next_id) ∧
    (runOpsH ops).2.Nodup ∧
    (∀ b ∈ (runOpsH ops).1.books, ∃ n, n ∈ (runOpsH ops).2 ∧ b.id = Nat.repr n) := by
  obtain ⟨h1, h2, h3, h4⟩ := goodState_runOpsH ops
  exact ⟨h4, h1, h2, h3⟩

/-- C6: the refactored `list_books` (delegating to `_sort_books`) agrees with
the original inline `list_books` on every state and every argument
combination, errors included. -/
theorem claim6_refactor_equivalence (s : BookService) (search : Option String)
    (sort_by : Option String) (asc : Bool) :
    list_books_refactored s search sort_by asc = list_books s search sort_by asc := by
  cases sort_by with
  | none => rfl
  | some f => rfl

/-- C7: an absent or empty search returns all records; a non-empty search
keeps exactly the records whose lowercased title or author contains the
lowercased term as a substring, preserving insertion order (the result is a
sublist) and multiplicity. -/
theorem claim7_search_filter (s : BookService) (t : String) :
    list_books s none none true = .ok s.books ∧
    list_books s (some "") none true = .ok s.books ∧
    (t ≠ "" → ∃ out, list_books s (some t) none true = .ok out ∧
      out.Sublist s.books ∧
      (∀ b, b ∈ out ↔ b ∈ s.books ∧
        (SubStr t.pyLower b.title.pyLower ∨ SubStr t.pyLower b.author.pyLower)) ∧
      (∀ b ∈ s.books,
        (SubStr t.pyLower b.title.pyLower ∨ SubStr t.pyLower b.author.pyLower) →
          out.count b = s.books.count b)) := by
  refine ⟨rfl, rfl, fun hne => ?_⟩
  refine ⟨s.books.filter (matchesSearch t), ?_, List.filter_sublist _, ?_, ?_⟩
  · show Except.ok (applySearch (some t) s.books) = _
    simp [applySearch, hne]
  · intro b
    rw [List.mem_filter, matchesSearch_iff]
  · intro b _ hcond
    exact List.count_filter ((matchesSearch_iff t b).mpr hcond)

/-- C7 (witness). -/
theorem claim7_witness :
    ∃ out, list_books sampleSvc (some "gatsby") none true = .ok out ∧
      out.Sublist sampleSvc.books ∧
      (∀ b, b ∈ out ↔ b ∈ sampleSvc.books ∧
        (SubStr "gatsby".pyLower b.title.pyLower ∨
          SubStr "gatsby".pyLower b.author.pyLower)) ∧
      (∀ b ∈ sampleSvc.books,
        (SubStr "gatsby".pyLower b.title.pyLower ∨
          SubStr "gatsby".pyLower b.author.pyLower) →
          out.count b = sampleSvc.books.count b) :=
  (claim7_search_filter sampleSvc "gatsby").2.2 (by decide)

/-- C8: `create_book` raises the validation error exactly when the title or
the author strips to the empty string, and that validation error is the only
error it can raise. -/
theorem claim8_create_validation (s : BookService) (t a : String) :
    (create_book s t a = .error .emptyTitleOrAuthor ↔
      (t.pyStrip = "" ∨ a.pyStrip = "")) ∧
    (∀ e, create_book s t a = .error e → e = .emptyTitleOrAuthor) :=
  ⟨create_book_error_iff, fun _ => create_book_error_kind⟩

/-- C8 (witness). -/
theorem claim8_witness :
    create_book initService "   " "A" = Except.error SvcError.emptyTitleOrAuthor :=
  (claim8_create_validation initService "   " "A").1.mpr (Or.inl (by decide))

/-- C9: `delete_book` (a total function -- it never raises) returns `false`
and leaves the catalog unchanged when no record has the id; when a record has
the id it returns `true`, removes exactly that record, keeps the counter, and
a second `delete_book` with the same id returns `false` and is a no-op.
(The hypothesis is the catalog invariant: stored ids are pairwise
distinct.) -/
theorem claim9_delete_semantics (s : BookService) (i : String)
    (hids : (s.books.map Book.id).Nodup) :
    ((∀ b ∈ s.books, b.id ≠ i) → delete_book s i = (false, s)) ∧
    (∀ b ∈ s.books, b.id = i →
      (delete_book s i).1 = true ∧
      (∃ pre post, s.books = pre ++ b :: post ∧
        (delete_book s i).2.books = pre ++ post ∧
        (delete_book s i).2.next_id = s.next_id) ∧
      delete_book (delete_book s i).2 i = (false, (delete_book s i).2)) := by
  constructor
  · intro hnone
    have hr : removeFirstBook s.books i = none := (removeFirstBook_none s.books i).mpr hnone
    simp [delete_book, hr]
  · intro b hb hid
    obtain ⟨pre, post, hdec, hpre, hpost, hdel⟩ := delete_book_found hids hb hid
    have hnone2 : ∀ x ∈ pre ++ post, x.id ≠ i := by
      intro x hx
      rcases List.mem_append.mp hx with h | h
      · exact hpre x h
      · exact hpost x h
    have hr2 : removeFirstBook (pre ++ post) i = none :=
      (removeFirstBook_none _ i).mpr hnone2
    refine ⟨by rw [hdel], ⟨pre, post, hdec, by rw [hdel], by rw [hdel]⟩, ?_⟩
    rw [hdel]
    simp [delete_book, hr2]

/-- C9 (witness). -/
theorem claim9_witness : delete_book sampleSvc "7" = (false, sampleSvc) :=
  (claim9_delete_semantics sampleSvc "7" (by decide)).1 (by decide)

/-- C10: a `create_book` call that raises leaves the catalog unchanged -- the
record list is identical, the counter is not incremented, and no id is
consumed (the op-level transition returns the state unaltered, and no record
and successor state are produced). -/
theorem claim10_failed_create_no_change (s : BookService) (t a : String) (e : SvcError)
    (h : create_book s t a = .error e) :
    applyOp s (Op.create t a) = s ∧ (∀ book s2, create_book s t a ≠ .ok (book, s2)) := by
  constructor
  · simp [applyOp, h]
  · intro book s2 hok
    rw [h] at hok
    exact absurd hok (by simp)

/-- C10 (witness). -/
theorem claim10_witness : applyOp initService (Op.create "" "x") = initService :=
  (claim10_failed_create_no_change initService "" "x" SvcError.emptyTitleOrAuthor rfl).1

end BookSvc

